import Mathlib

/-! Verification of the pNMR FID simulation (`FID_simulation.py`) against its
natural-language specification.

The Python source is shallowly embedded: numpy float arrays become `List ℝ`
(exact real arithmetic), the seeded `RandomState` becomes an explicit stream
`ℕ → ℝ` of unit-uniform (resp. standard-normal) draws, and Python exceptions
become `Except`.  Every definition is translated directly from the source
file; the one exception is `coil_pickup_flux_spec`, which is modelled from the
spec because the source `Coil` class has no `pickup_flux` method.
-/

noncomputable section

/-- Decide whether an `Except` computation returned normally (no exception). -/
def okB {ε α : Type} : Except ε α → Bool
  | Except.ok _ => true
  | Except.error _ => false

/-! Section: RingMagnet (multipole field)

`RingMagnet.__init__` builds the strength dictionary `An` (index 2 holds the
base dipole strength `B0`, all 23 other indices hold zero) and the fixed basis
table `P` of 24 polynomial basis functions, one triple per multipole index. -/

/-- Source `x`-component basis polynomials `P[i]["x"]` of the 24 multipoles
(indices outside 1..24 are never looked up by the source; default 0). -/
def Px : ℤ → ℝ → ℝ → ℝ → ℝ
  | 1, _, _, _ => 1
  | 2, _, _, _ => 0
  | 3, _, _, _ => 1
  | 4, x, _, _ => x
  | 5, _, _, z => z
  | 6, _, _, _ => 0
  | 7, _, y, _ => y
  | 8, _, _, _ => 0
  | 9, x, y, _ => x ^ 2 - y ^ 2
  | 10, x, _, z => 2 * x * z
  | 11, _, y, z => z ^ 2 - y ^ 2
  | 12, _, _, _ => 0
  | 13, x, y, _ => 2 * x * y
  | 14, _, y, z => y * z
  | 15, _, _, _ => 0
  | 16, x, y, _ => x ^ 3 - 3 * x * y ^ 2
  | 17, x, y, z => 3 * x ^ 2 * z - 3 * z * y ^ 2
  | 18, x, y, z => 3 * x * z ^ 2 - 3 * x * y ^ 2
  | 19, _, y, z => z ^ 3 - 3 * z * y ^ 2
  | 20, _, _, _ => 0
  | 21, x, y, _ => 3 * x ^ 2 * y - y ^ 3
  | 22, x, y, z => 6 * x * y * z
  | 23, _, y, z => 3 * z ^ 2 * y - y ^ 3
  | 24, _, _, _ => 0
  | _, _, _, _ => 0

/-- Source `y`-component basis polynomials `P[i]["y"]` of the 24 multipoles. -/
def Py : ℤ → ℝ → ℝ → ℝ → ℝ
  | 1, _, _, _ => 0
  | 2, _, _, _ => 1
  | 3, _, _, _ => 0
  | 4, _, y, _ => -y
  | 5, _, _, _ => 0
  | 6, _, y, _ => -y
  | 7, x, _, _ => x
  | 8, _, _, z => z
  | 9, x, y, _ => -2 * x * y
  | 10, _, y, z => -2 * y * z
  | 11, x, y, _ => -2 * x * y
  | 12, _, y, z => -2 * y * z
  | 13, x, y, _ => x ^ 2 - y ^ 2
  | 14, x, _, z => x * z
  | 15, _, y, z => z ^ 2 - y ^ 2
  | 16, x, y, _ => y ^ 3 - 3 * x ^ 2 * y
  | 17, x, y, z => -6 * x * y * z
  | 18, x, y, z => -3 * x ^ 2 * y - 3 * z ^ 2 * y + 2 * y ^ 3
  | 19, x, y, z => -6 * x * y * z
  | 20, _, y, z => y ^ 3 - 3 * z ^ 2 * y
  | 21, x, y, _ => x ^ 3 - 3 * x * y ^ 2
  | 22, x, y, z => 3 * x ^ 2 * z - 3 * z * y ^ 2
  | 23, x, y, z => 3 * x * z ^ 2 - 3 * x * y ^ 2
  | 24, _, y, z => z ^ 3 - 3 * z * y ^ 2
  | _, _, _, _ => 0

/-- Source `z`-component basis polynomials `P[i]["z"]` of the 24 multipoles. -/
def Pz : ℤ → ℝ → ℝ → ℝ → ℝ
  | 1, _, _, _ => 0
  | 2, _, _, _ => 0
  | 3, _, _, _ => 1
  | 4, _, _, _ => 0
  | 5, x, _, _ => x
  | 6, _, _, z => z
  | 7, _, _, _ => 0
  | 8, _, y, _ => y
  | 9, _, _, _ => 0
  | 10, x, y, _ => x ^ 2 - y ^ 2
  | 11, x, y, _ => 2 * x * y
  | 12, _, y, z => z ^ 2 - y ^ 2
  | 13, _, _, _ => 0
  | 14, x, y, _ => x * y
  | 15, _, y, z => 2 * y * z
  | 16, _, _, _ => 0
  | 17, x, y, _ => x ^ 3 - 3 * x * y ^ 2
  | 18, x, y, z => 3 * x ^ 2 * z - 3 * z * y ^ 2
  | 19, x, y, z => 3 * x * z ^ 2 - 3 * x * y ^ 2
  | 20, _, y, z => z ^ 3 - 3 * z * y ^ 2
  | 21, _, _, _ => 0
  | 22, x, y, _ => 3 * x ^ 2 * y - y ^ 3
  | 23, x, y, z => 6 * x * y * z
  | 24, _, y, z => 3 * z ^ 2 * y - y ^ 3
  | _, _, _, _ => 0

/-- The key set of the `An` and `P` dictionaries: multipole indices 1..24. -/
def multipoleKeys : List ℤ :=
  [1, 2, 3, 4, 5, 6, 7, 8, 9, 10, 11, 12, 13, 14, 15, 16, 17, 18, 19, 20, 21,
   22, 23, 24]

/-- The strength dictionary built by `RingMagnet.__init__(B0)`: index 2 is the
base dipole strength, all other indices are initialised to zero
(`0*T`, `0*T/mm`, `0*T/mm**2`, `0*T/mm**3` are all the real number 0). -/
def ringMagnet_An (B0 : ℝ) : ℤ → ℝ := fun i => if i = 2 then B0 else 0

/-- Source `RingMagnet.B_field(x, y, z)`: componentwise sum over the 24 dictionary
keys of `An[i] * P[i][component](x, y, z)`. -/
def B_field (An : ℤ → ℝ) (x y z : ℝ) : ℝ × ℝ × ℝ :=
  ((multipoleKeys.map fun i => An i * Px i x y z).sum,
   (multipoleKeys.map fun i => An i * Py i x y z).sum,
   (multipoleKeys.map fun i => An i * Pz i x y z).sum)

/-- Source `RingMagnet.set_strength_at_1cm(multipole, strength)`: raises `ValueError`
for an index outside 1..24, otherwise divides the strength by `cm`, `cm**2`
or `cm**3` according to the elif band the index falls in (dipoles 1..3 are
left undivided) and stores `strength * An[2]` at the index.  The unit
constant `cm` of the `numericalunits` package is passed explicitly. -/
def set_strength_at_1cm (An : ℤ → ℝ) (cm : ℝ) (multipole : ℤ) (strength : ℝ) :
    Except String (ℤ → ℝ) :=
  if multipole < 1 ∨ multipole > 24 then
    Except.error "ValueError: Multipoles are only defined for index 1 to 24."
  else
    let s :=
      if 4 ≤ multipole ∧ multipole ≤ 8 then strength / cm
      else if 9 ≤ multipole ∧ multipole ≤ 15 then strength / cm ^ 2
      else if 16 ≤ multipole ∧ multipole ≤ 24 then strength / cm ^ 3
      else strength
    Except.ok (Function.update An multipole (s * An 2))

/-- The multipole order of an index in 1..24: 0 for the dipole band 1..3,
1 for quadrupoles 4..8, 2 for sextupoles 9..15, 3 for octupoles 16..24. -/
def multipoleOrder (m : ℤ) : ℕ :=
  if m ≤ 3 then 0 else if m ≤ 8 then 1 else if m ≤ 15 then 2 else 3

/-! Section: Material

`Material.__init__` stores its (possibly `None`) arguments and eagerly
computes `magnetic_moment = gyromagnetic_ratio * hbar / 2`; multiplying
`None` by a float raises `TypeError` in Python.  The gyromagnetic ratio is
named `gamma` here. -/

/-- A constructed `Material` instance (construction succeeded). -/
structure MaterialState where
  name : String
  formula : Option String
  density : Option ℝ
  molar_mass : Option ℝ
  T1 : Option ℝ
  T2 : Option ℝ
  gamma : Option ℝ
  magnetic_moment : ℝ

/-- Source `Material.__init__`: every field is stored as given; the derived
`magnetic_moment = gamma * hbar / 2` is computed at construction time, so a
`None` gyromagnetic ratio raises `TypeError` (NoneType times float). -/
def material_init (hbar : ℝ) (name : String) (formula : Option String)
    (density molar_mass T1 T2 gamma : Option ℝ) : Except String MaterialState :=
  match gamma with
  | none => Except.error "TypeError: unsupported operand types NoneType and float"
  | some g =>
      Except.ok ⟨name, formula, density, molar_mass, T1, T2, some g, g * hbar / 2⟩

/-! Section: Probe flux read-out (`Probe.pickup_flux`)

The per-cell arrays `cells_mu_T`, `cells_B0`, `cells_B1_x`, `cells_B1_y`,
`cells_B1_z`, `cells_B1`, `cells_magnetization` are index-aligned; a cell
bundles the entries at one index.  Every numpy operation in `pickup_flux` is
elementwise in the time axis with a plain sum over the cell axis, so the
vectorised chunk computation is embedded as a map over the chunk's times of a
per-time scalar `fluxAt`. -/

/-- One cell's slice of the probe's index-aligned per-cell arrays, as used by
`Probe.pickup_flux`. -/
structure Cell where
  mu_T : ℝ
  B0 : ℝ
  B1x : ℝ
  B1y : ℝ
  B1z : ℝ
  B1 : ℝ
  magnetization : ℝ

/-- The probe state read by `Probe.pickup_flux`: material constants
(`gamma` = gyromagnetic ratio, `T2`), the coil constants (`turns`, `radius`),
the permeability constant `mu0`, the `useAverage` normalization flag and the
per-cell arrays. -/
structure FluxProbe where
  gamma : ℝ
  T2 : ℝ
  turns : ℝ
  radius : ℝ
  mu0 : ℝ
  useAverage : Bool
  cells : List Cell

/-- Source `N_cells = len(self.cells_B0)`. -/
def Ncells (p : FluxProbe) : ℕ := p.cells.length

/-- Source `magnitude = cells_mu_T * sqrt((gamma*cells_B0)**2 + 1/T2**2)`. -/
def magnitude (p : FluxProbe) (c : Cell) : ℝ :=
  c.mu_T * Real.sqrt ((p.gamma * c.B0) ^ 2 + 1 / p.T2 ^ 2)

/-- Source `phase = arctan(1/(T2*gamma*cells_B0))`. -/
def cellPhase (p : FluxProbe) (c : Cell) : ℝ :=
  Real.arctan (1 / (p.T2 * p.gamma * c.B0))

/-- Source `omega_mixed = gamma*cells_B0 - 2*pi*mix_down`. -/
def omegaMixed (p : FluxProbe) (mixDown : ℝ) (c : Cell) : ℝ :=
  p.gamma * c.B0 - 2 * Real.pi * mixDown

/-- One entry of the `B_x_dmu_dt` array:
`magnitude*(B1x*cos(argument) + B1z*sin(argument))*exp(-t/T2)` with
`argument = omega_mixed*t - phase`. -/
def B_x_dmu_dt (p : FluxProbe) (mixDown : ℝ) (c : Cell) (t : ℝ) : ℝ :=
  magnitude p c *
    (c.B1x * Real.cos (omegaMixed p mixDown c * t - cellPhase p c) +
     c.B1z * Real.sin (omegaMixed p mixDown c * t - cellPhase p c)) *
    Real.exp (-t / p.T2)

/-- Source `np.mean(self.cells_B1[:, None])`: the mean of the per-cell coil-field
magnitudes. -/
def meanB1 (p : FluxProbe) : ℝ :=
  (p.cells.map Cell.B1).sum / (Ncells p : ℝ)

/-- The flux value one chunk computes at one time sample
(before the final division by `N_cells`): the sum over cells of
`B_x_dmu_dt * cells_magnetization`, scaled by `turns * mu0 * pi * radius**2`
and normalized by the mean coil field (`useAverage`) or per cell. -/
def fluxAt (p : FluxProbe) (mixDown : ℝ) (t : ℝ) : ℝ :=
  if p.useAverage then
    p.turns * p.mu0 *
      (p.cells.map fun c => B_x_dmu_dt p mixDown c t * c.magnetization).sum *
      Real.pi * p.radius ^ 2 / meanB1 p
  else
    p.turns * p.mu0 *
      (p.cells.map fun c => B_x_dmu_dt p mixDown c t * c.magnetization / c.B1).sum *
      Real.pi * p.radius ^ 2

/-- The array a single chunk appends to `results` for chunk times `ts`. -/
def chunkResult (p : FluxProbe) (mixDown : ℝ) (ts : List ℝ) : List ℝ :=
  ts.map (fluxAt p mixDown)

/-- Source `max_memory = 10000000`. -/
def maxMemory : ℕ := 10000000

/-- The chunking `while idx_end != -1` loop of `Probe.pickup_flux`, with an
explicit fuel bound on the number of iterations: while
`N_cells * len(t[idx_start:]) > max_memory` holds it processes the chunk
`t[idx_start : idx_start + max_memory//N_cells]` and advances `idx_start`,
otherwise it processes the remaining `t[idx_start:]` and stops.  `none` means
the fuel ran out, which (with enough fuel supplied) models the Python loop
never terminating. -/
def pickupFluxLoop (p : FluxProbe) (mixDown : ℝ) (ts : List ℝ) :
    ℕ → ℕ → Option (List ℝ)
  | 0, _ => none
  | Nat.succ fuel, idxStart =>
    if Ncells p * (ts.length - idxStart) > maxMemory then
      match pickupFluxLoop p mixDown ts fuel (idxStart + maxMemory / Ncells p) with
      | none => none
      | some rest =>
          some (chunkResult p mixDown ((ts.drop idxStart).take (maxMemory / Ncells p))
                ++ rest)
    else
      some (chunkResult p mixDown (ts.drop idxStart))

/-- Source `Probe.pickup_flux(t, mix_down, useAverage)`: run the chunking loop from
`idx_start = 0` and divide the concatenated results by `N_cells`.  The fuel
`ts.length + 1` bounds the iteration count of any terminating run, so `none`
is returned exactly when the Python loop runs forever. -/
def pickup_flux (p : FluxProbe) (mixDown : ℝ) (ts : List ℝ) : Option (List ℝ) :=
  (pickupFluxLoop p mixDown ts (ts.length + 1) 0).map fun rs =>
    rs.map fun v => v / (Ncells p : ℝ)

/-- Evaluating the whole times array in a single chunk (the loop's terminal
branch applied to the full array), divided by `N_cells`. -/
def pickup_flux_single (p : FluxProbe) (mixDown : ℝ) (ts : List ℝ) : List ℝ :=
  (chunkResult p mixDown ts).map fun v => v / (Ncells p : ℝ)

/-! Section: Coil pickup flux (modelled from the spec)

The source `Coil` class has only `B_field` and `Bz`; the spec (section 4.3)
additionally describes `Coil.pickup_flux(probe, times, mix_down)`. -/

/-- Modelled from the spec: the time derivative of the x component of a
cell's magnetization unit vector,
`mu_T * sqrt((gamma*B0)**2 + 1/T2**2) * cos((gamma*B0 - 2 pi mix_down)*t -
arctan(1/(T2*gamma*B0))) * exp(-t/T2)` (section 4.3 together with the
closed-form derivative the spec's flux formula is based on). -/
def dmu_x_dt (p : FluxProbe) (mixDown : ℝ) (c : Cell) (t : ℝ) : ℝ :=
  c.mu_T * Real.sqrt ((p.gamma * c.B0) ^ 2 + 1 / p.T2 ^ 2) *
    Real.cos ((p.gamma * c.B0 - 2 * Real.pi * mixDown) * t -
      Real.arctan (1 / (p.T2 * p.gamma * c.B0))) *
    Real.exp (-t / p.T2)

/-- Modelled from the spec: the y component of the magnetization is static
(the external field is along y), so its time derivative vanishes. -/
def dmu_y_dt (_p : FluxProbe) (_mixDown : ℝ) (_c : Cell) (_t : ℝ) : ℝ := 0

/-- Modelled from the spec: the time derivative of the z component of a
cell's magnetization unit vector (as `dmu_x_dt` with sine in place of
cosine). -/
def dmu_z_dt (p : FluxProbe) (mixDown : ℝ) (c : Cell) (t : ℝ) : ℝ :=
  c.mu_T * Real.sqrt ((p.gamma * c.B0) ^ 2 + 1 / p.T2 ^ 2) *
    Real.sin ((p.gamma * c.B0 - 2 * Real.pi * mixDown) * t -
      Real.arctan (1 / (p.T2 * p.gamma * c.B0))) *
    Real.exp (-t / p.T2)

/-- Modelled from the spec: `Coil.pickup_flux(probe, times, mix_down)`, which
is absent from the source `Coil` class.  Following section 4.3, the induced
EMF at each time is the sum over cells of the projection of the cell's
magnetization precession onto the coil's field vector at the cell
(`B1 . dmu/dt`, with the cell's magnetization magnitude), scaled by the turn
count, the permeability constant and the cross-sectional area `pi*radius**2`,
normalized by the mean coil-field magnitude (average normalization) or by the
per-cell magnitude, and averaged over the `N` cells. -/
def coil_pickup_flux_spec (p : FluxProbe) (mixDown : ℝ) (ts : List ℝ) : List ℝ :=
  ts.map fun t =>
    if p.useAverage then
      p.turns * p.mu0 * Real.pi * p.radius ^ 2 *
        (p.cells.map fun c =>
          (c.B1x * dmu_x_dt p mixDown c t + c.B1y * dmu_y_dt p mixDown c t +
           c.B1z * dmu_z_dt p mixDown c t) * c.magnetization).sum /
        meanB1 p / (Ncells p : ℝ)
    else
      p.turns * p.mu0 * Real.pi * p.radius ^ 2 *
        (p.cells.map fun c =>
          (c.B1x * dmu_x_dt p mixDown c t + c.B1y * dmu_y_dt p mixDown c t +
           c.B1z * dmu_z_dt p mixDown c t) * c.magnetization / c.B1).sum /
        (Ncells p : ℝ)

/-! Section: Probe construction (`Probe.__init__` / `Probe.initialize_cells`)

The seeded `np.random.RandomState` is embedded as a stream `U : ℕ → ℝ` of
unit-uniform draws; `rng.uniform(low, high, size=n)` returns
`low + (high - low) * U k` for `n` consecutive stream positions `k`, each
draw lying in `[0, 1)`.  The three `uniform` calls of `initialize_cells`
consume positions `0..N-1` (the radial draws), `N..2N-1` (the angles) and
`2N..3N-1` (the axial positions). -/

/-- The numeric material constants `initialize_cells` reads.  The probe
presets (`PetroleumJelly`, `PP_Water`) have all of these set:
`magnetic_moment = gamma*hbar/2` and `number_density = density/molar_mass`
per the `Material` class. -/
structure PMaterial where
  magnetic_moment : ℝ
  number_density : ℝ
  gamma : ℝ
  T1 : ℝ
  T2 : ℝ

/-- One cell produced by `initialize_cells`: its position, static field
vector and magnitude, equilibrium nuclear polarization, magnetization and
dipole moment magnitude. -/
structure PCell where
  x : ℝ
  y : ℝ
  z : ℝ
  B0x : ℝ
  B0y : ℝ
  B0z : ℝ
  B0 : ℝ
  polarization : ℝ
  magnetization : ℝ
  dipole_moment_mag : ℝ

/-- The cell at index `i` of `Probe.initialize_cells(N_cells)`:
`r = sqrt(uniform(0, radius**2))`, `phi = uniform(0, 2*pi)`,
`x = r*sin(phi)`, `y = r*cos(phi)`, `z = uniform(-length/2, length/2)`,
`B0` from the field source at the position, and the Boltzmann-exponential
polarization `(exp(e) - exp(-e))/(exp(e) + exp(-e))` with
`e = magnetic_moment*|B0|/(kB*temp)`.  `V_cell = length*pi*radius**2` is the
probe volume computed in `Probe.__init__`. -/
def cellOf (radius length temp kB V_cell : ℝ) (mat : PMaterial)
    (Bf : ℝ → ℝ → ℝ → ℝ × ℝ × ℝ) (N : ℕ) (U : ℕ → ℝ) (i : ℕ) : PCell :=
  let r := Real.sqrt (radius ^ 2 * U i)
  let phi := 2 * Real.pi * U (N + i)
  let x := r * Real.sin phi
  let y := r * Real.cos phi
  let z := -(length / 2) + length * U (2 * N + i)
  let B := Bf x y z
  let B0 := Real.sqrt (B.1 ^ 2 + B.2.1 ^ 2 + B.2.2 ^ 2)
  let expon := mat.magnetic_moment * B0 / (kB * temp)
  let pol := (Real.exp expon - Real.exp (-expon)) /
             (Real.exp expon + Real.exp (-expon))
  let magn := mat.magnetic_moment * mat.number_density * pol
  { x := x, y := y, z := z, B0x := B.1, B0y := B.2.1, B0z := B.2.2, B0 := B0,
    polarization := pol, magnetization := magn,
    dipole_moment_mag := magn * V_cell / (N : ℝ) }

/-- Source `Probe.initialize_cells(N_cells)`: the list of `N` cells. -/
def init_cells (radius length temp kB V_cell : ℝ) (mat : PMaterial)
    (Bf : ℝ → ℝ → ℝ → ℝ × ℝ × ℝ) (N : ℕ) (U : ℕ → ℝ) : List PCell :=
  (List.range N).map (cellOf radius length temp kB V_cell mat Bf N U)

/-- Source `Probe.__init__(length, diameter, material, temp, B_field, coil, N_cells,
seed)`: stores the geometry (`radius = diameter/2`,
`V_cell = length*pi*radius**2`) and calls `initialize_cells`.  The source
performs no parameter validation; two generic library errors can still
escape `initialize_cells`: numpy's `ValueError` when `rng.uniform` is asked
for a negative sample count (`N_cells < 0`), and, for `N_cells = 0`, an
`IndexError` because the per-cell field array `B0 = np.array([])` built from
the empty position list is 1-dimensional, so the column slice `B0[:,0]` has
too many indices.  A non-positive radius or length is not rejected. -/
def probe_init (length diameter temp kB : ℝ) (mat : PMaterial)
    (Bf : ℝ → ℝ → ℝ → ℝ × ℝ × ℝ) (N_cells : ℤ) (U : ℕ → ℝ) :
    Except String (List PCell) :=
  if N_cells < 0 then
    Except.error "ValueError: negative dimensions are not allowed"
  else if N_cells = 0 then
    Except.error "IndexError: too many indices for array"
  else
    let radius := diameter / 2
    let V_cell := length * Real.pi * radius ^ 2
    Except.ok (init_cells radius length temp kB V_cell mat Bf N_cells.toNat U)

/-! Section: Numerical RF excitation (`Probe.apply_rf_field_nummerical`)

The adaptive integrator `scipy.integrate.RK45` is abstracted as the sequence
of states it passes through: a snapshot holds the integrator's `status`
(`running`, `finished` or `failed`), its time `t` and its flattened
state vector `y` of length `3*N_cells`.  The source loop reads the snapshot,
records it, and steps to the next one, exiting at the first snapshot whose
status is not `running`; it then unconditionally assigns the per-cell
magnetization from the last recorded state. -/

/-- The status values (strings in scipy) of the RK45 integrator. -/
inductive RKStatus
  | running
  | finished
  | failed
deriving DecidableEq

/-- One state of the RK45 integrator: status, time and flattened `y`. -/
structure RKSnap where
  status : RKStatus
  t : ℝ
  y : List ℝ

/-- The `while rk_res.status == "running"` loop: starting from `M = None` and
an empty history, each running snapshot overwrites `M` with its state and
appends a history record (the source records `t` together with summary
statistics of `y`; the full `(t, y)` pair is recorded here), and the loop
stops at the first non-running snapshot. -/
def rfLoop : List RKSnap → Option (List ℝ) → List (ℝ × List ℝ) →
    Option (List ℝ) × List (ℝ × List ℝ)
  | [], M, hist => (M, hist)
  | s :: rest, M, hist =>
    if s.status = RKStatus.running then
      rfLoop rest (some s.y) (hist ++ [(s.t, s.y)])
    else (M, hist)

/-- How `apply_rf_field_nummerical` can fail.  The spec demands a
`NumericalInstability` error when the integrator fails; the only failure the
source can actually produce is Python's `TypeError` from subscripting
`M = None` when the loop body never ran. -/
inductive RFError
  | numericalInstability
  | noneTypeError
deriving DecidableEq

/-- The state `apply_rf_field_nummerical` leaves behind on a normal return:
`cells_mu_x = M[0]`, `cells_mu_y = M[1]`, `cells_mu_z = M[2]` (the three
`N`-blocks of the flattened state) and
`cells_mu_T = sqrt(cells_mu_x**2 + cells_mu_z**2)`, plus the returned
history. -/
structure RFState where
  mu_x : List ℝ
  mu_y : List ℝ
  mu_z : List ℝ
  mu_T : List ℝ
  history : List (ℝ × List ℝ)

/-- The final assignments of `apply_rf_field_nummerical` from the last
recorded state vector `y` and the recorded history. -/
def rfAssign (N : ℕ) (y : List ℝ) (hist : List (ℝ × List ℝ)) : RFState :=
  { mu_x := y.take N
    mu_y := (y.drop N).take N
    mu_z := y.drop (2 * N)
    mu_T := List.zipWith (fun a c => Real.sqrt (a ^ 2 + c ^ 2))
      (y.take N) (y.drop (2 * N))
    history := hist }

/-- Source `Probe.apply_rf_field_nummerical`, given the integrator's snapshot
sequence: run the stepping loop, then assign the magnetization state from the
last recorded `M` and return the history.  No status check follows the loop:
the assignment happens whether the terminal status is `finished` or
`failed`.  Only `M = None` (no running snapshot at all) raises. -/
def apply_rf_field_nummerical (N : ℕ) (trace : List RKSnap) :
    Except RFError RFState :=
  match rfLoop trace none [] with
  | (none, _) => Except.error RFError.noneTypeError
  | (some y, hist) => Except.ok (rfAssign N y hist)

/-- The status at which the integrator's stepping stops: the status of the
first non-running snapshot. -/
def terminalStatus : List RKSnap → Option RKStatus
  | [] => none
  | s :: rest =>
    if s.status = RKStatus.running then terminalStatus rest else some s.status

/-! Section: Noise

The `Noise` generator's `RandomState` is embedded as a stream `rng : ℕ → ℝ`
of standard-normal draws, consumed positionally:
`rng.normal(loc, scale)` at stream position `k` is `loc + scale * rng k`,
and a size-`n` call consumes `n` consecutive positions. -/

/-- The optional parameters of `Noise.__init__` (the owned fallback
`RandomState` is subsumed by the explicit stream argument of the calls). -/
structure NoiseParams where
  white_noise : Option ℝ
  freq_power : Option ℝ
  scale_freq : Option ℝ
  drift_lin : Option ℝ
  drift_exp : Option ℝ
  drift_exp_time : Option ℝ

/-- Source `rng.normal(loc=loc, scale=scale)` at stream position `k`. -/
def normal_draw (rng : ℕ → ℝ) (k : ℕ) (loc scale : ℝ) : ℝ :=
  loc + scale * rng k

/-- Source `np.fft.fftfreq(N, d)`: sample frequency `j/(d*N)` for the first
`(N+1)/2` bins and `(j-N)/(d*N)` for the rest. -/
def fftfreq (N : ℕ) (d : ℝ) : List ℝ :=
  (List.range N).map fun j =>
    if j < (N + 1) / 2 then (j : ℝ) / (d * N) else ((j : ℝ) - N) / (d * N)

/-- Source `scipy.fftpack.fft`: the discrete Fourier transform
`X_k = sum_j x_j exp(-2 pi i j k / N)`. -/
def dft (xs : List ℂ) : List ℂ :=
  (List.range xs.length).map fun k =>
    (xs.enum.map fun jx =>
      jx.2 * Complex.exp (-(2 * Real.pi * Complex.I * jx.1 * k) / xs.length)).sum

/-- Source `scipy.fftpack.ifft`: the inverse transform
`x_j = (1/N) sum_k X_k exp(2 pi i j k / N)`. -/
def idft (xs : List ℂ) : List ℂ :=
  (List.range xs.length).map fun k =>
    (xs.enum.map fun jx =>
      jx.2 * Complex.exp (2 * Real.pi * Complex.I * jx.1 * k / xs.length)).sum /
      (xs.length : ℂ)

/-- Source `Noise.get_freq_noise(times, rng)` starting at stream position `ptr`:
draw `N` Gaussians of width `scale_freq`, transform, scale every
nonzero-frequency bin by `|f|**(0.5*freq_power)`, zero the DC bin, transform
back and take the real part.  (For fewer than two samples the source's
`times[1] - times[0]` raises `IndexError`; the spacing is read with a default
of 0 here, the branch is unreachable in the settled claims.) -/
def get_freq_noise (scale_freq freq_power : ℝ) (times : List ℝ)
    (rng : ℕ → ℝ) (ptr : ℕ) : List ℝ :=
  let N := times.length
  let d := times.getD 1 0 - times.getD 0 0
  let rand_noise := (List.range N).map fun j => normal_draw rng (ptr + j) 0 scale_freq
  let freq := fftfreq N d
  let fftv := dft (rand_noise.map fun v => (v : ℂ))
  let scaled := List.zipWith
    (fun f (Fk : ℂ) => if f ≠ 0 then Fk * ((|f| ^ (0.5 * freq_power) : ℝ) : ℂ) else 0)
    freq fftv
  (idft scaled).map Complex.re

/-- Source `Noise.get_white_noise(times, rng)` at stream position `ptr`: a single
scalar Gaussian draw of standard deviation `white_noise` (no `size`
argument is passed to `rng.normal`). -/
def get_white_noise (white_noise : ℝ) (rng : ℕ → ℝ) (ptr : ℕ) : ℝ :=
  normal_draw rng ptr 0 white_noise

/-- Source `Noise.get_linear_drift(times)`. -/
def get_linear_drift (drift_lin : ℝ) (times : List ℝ) : List ℝ :=
  times.map fun t => t * drift_lin

/-- Source `Noise.get_exp_drift(times)`. -/
def get_exp_drift (drift_exp drift_exp_time : ℝ) (times : List ℝ) : List ℝ :=
  times.map fun t => drift_exp * Real.exp (-t / drift_exp_time)

/-- Source `Noise.__call__(times, rng)`: start from `np.zeros_like(times)` and add
each enabled term; a term is enabled when its parameters are not `None`.
The colored-noise term consumes `len(times)` draws before the white-noise
term draws, mirroring the sequential use of the generator. -/
def noise_call (n : NoiseParams) (times : List ℝ) (rng : ℕ → ℝ) : List ℝ :=
  let noise0 : List ℝ := List.replicate times.length 0
  let noise1 :=
    match n.freq_power, n.scale_freq with
    | some fp, some sf =>
        List.zipWith (· + ·) noise0 (get_freq_noise sf fp times rng 0)
    | _, _ => noise0
  let ptr := match n.freq_power, n.scale_freq with
    | some _, some _ => times.length
    | _, _ => 0
  let noise2 :=
    match n.white_noise with
    | some w => noise1.map fun v => v + get_white_noise w rng ptr
    | none => noise1
  let noise3 :=
    match n.drift_lin with
    | some dl => List.zipWith (· + ·) noise2 (get_linear_drift dl times)
    | none => noise2
  match n.drift_exp, n.drift_exp_time with
  | some de, some det => List.zipWith (· + ·) noise3 (get_exp_drift de det times)
  | _, _ => noise3

/-! Section: Concrete instances used by witnesses and counterexamples -/

/-- A fully specified material for concrete probe instances (a zero magnetic
moment keeps the Boltzmann exponent at 0). -/
def pm0 : PMaterial := ⟨0, 0, 0, 1, 1⟩

/-- A concrete field source: the homogeneous unit dipole field along y. -/
def Bf0 : ℝ → ℝ → ℝ → ℝ × ℝ × ℝ := fun _ _ _ => (0, 1, 0)

/-! Section: Claim theorems -/

/-- C3: a `RingMagnet` constructed with base dipole strength `B0` at index 2
and every other multipole strength left at its default of zero evaluates its
field to exactly `(0, B0, 0)` at every position. -/
theorem ring_magnet_dipole_only_field (B0 x y z : ℝ) :
    B_field (ringMagnet_An B0) x y z = (0, B0, 0) := by
  simp [B_field, multipoleKeys, ringMagnet_An, Px, Py, Pz]

/-- C4: `set_strength_at_1cm(multipole, strength)` raises exactly when the
index is outside 1..24, and otherwise stores
`strength / cm^order * An[2]` at the index, with the order 0/1/2/3 read off
the dipole/quadrupole/sextupole/octupole band the index falls in. -/
theorem set_strength_at_1cm_spec (An : ℤ → ℝ) (cm : ℝ) (m : ℤ) (s : ℝ) :
    (okB (set_strength_at_1cm An cm m s) = false ↔ m < 1 ∨ 24 < m) ∧
    (1 ≤ m → m ≤ 24 →
      set_strength_at_1cm An cm m s =
        Except.ok (Function.update An m (s / cm ^ multipoleOrder m * An 2))) := by
  constructor
  · by_cases h : m < 1 ∨ m > 24
    · rw [set_strength_at_1cm, if_pos h]
      simp [okB]
      omega
    · rw [set_strength_at_1cm, if_neg h]
      simp [okB]
      omega
  · intro h1 h2
    have hout : ¬(m < 1 ∨ m > 24) := by omega
    by_cases hq : 4 ≤ m ∧ m ≤ 8
    · have hord : multipoleOrder m = 1 := by
        unfold multipoleOrder
        rw [if_neg (by omega), if_pos (by omega)]
      rw [set_strength_at_1cm, if_neg hout]
      simp only [if_pos hq, hord, pow_one]
    · by_cases hs : 9 ≤ m ∧ m ≤ 15
      · have hord : multipoleOrder m = 2 := by
          unfold multipoleOrder
          rw [if_neg (by omega), if_neg (by omega), if_pos (by omega)]
        rw [set_strength_at_1cm, if_neg hout]
        simp only [if_neg hq, if_pos hs, hord]
      · by_cases ho : 16 ≤ m ∧ m ≤ 24
        · have hord : multipoleOrder m = 3 := by
            unfold multipoleOrder
            rw [if_neg (by omega), if_neg (by omega), if_neg (by omega)]
          rw [set_strength_at_1cm, if_neg hout]
          simp only [if_neg hq, if_neg hs, if_pos ho, hord]
        · have hord : multipoleOrder m = 0 := by
            unfold multipoleOrder
            rw [if_pos (by omega)]
          rw [set_strength_at_1cm, if_neg hout]
          simp only [if_neg hq, if_neg hs, if_neg ho, hord, pow_zero, div_one]

/-- Witness for C4: the spec's concrete instance, index 4 (quadrupole) with
relative strength `1e-6` on a base dipole of `1.45`, stores
`1e-6 / cm^1 * 1.45` (the reference distance is taken as `cm = 2`). -/
theorem set_strength_at_1cm_spec_witness :
    (1 : ℤ) ≤ 4 ∧ (4 : ℤ) ≤ 24 ∧
      set_strength_at_1cm (ringMagnet_An 1.45) 2 4 1e-6 =
        Except.ok (Function.update (ringMagnet_An 1.45) 4
          ((1e-6 : ℝ) / 2 ^ multipoleOrder 4 * ringMagnet_An 1.45 2)) :=
  ⟨by decide, by decide,
    (set_strength_at_1cm_spec (ringMagnet_An 1.45) 2 4 1e-6).2 (by decide) (by decide)⟩

/-- Counterexample for C8: constructing a `Material` with every optional
field unset fails (the eager `gyromagnetic_ratio*hbar/2` multiplies `None`
by a float), contradicting the claim that unset fields never affect
construction success. -/
theorem material_init_unset_gamma_fails_cex :
    okB (material_init 1 "Petroleum Jelly" none none none none none none) = false :=
  rfl

/-- C8 (amended): `Material` construction succeeds exactly when the
gyromagnetic ratio is given; the other optional fields never affect
construction success. -/
theorem material_init_ok_iff (hbar : ℝ) (name : String) (formula : Option String)
    (density molar_mass T1 T2 gamma : Option ℝ) :
    okB (material_init hbar name formula density molar_mass T1 T2 gamma) =
      gamma.isSome := by
  cases gamma <;> rfl

/-- Counterexample for C7: `Probe` construction succeeds (no error) with a
zero length and a negative diameter (hence non-positive radius), although
the claim demands an invalid-parameter error for non-positive geometry. -/
theorem probe_init_no_validation_cex :
    okB (probe_init 0 (-1) 300 1 pm0 Bf0 5 fun _ => 0) = true :=
  rfl

/-- C7 (amended): `Probe` construction performs no parameter validation of
its own: it fails exactly when `N_cells < 1` — through numpy's generic
`ValueError` for a negative sample count and the `IndexError` from slicing
the empty per-cell field array for `N_cells = 0` — and succeeds for every
`N_cells ≥ 1` independently of the sign of radius, length or temperature. -/
theorem probe_init_ok_iff (length diameter temp kB : ℝ) (mat : PMaterial)
    (Bf : ℝ → ℝ → ℝ → ℝ × ℝ × ℝ) (N : ℤ) (U : ℕ → ℝ) :
    okB (probe_init length diameter temp kB mat Bf N U) = true ↔ 1 ≤ N := by
  unfold probe_init
  by_cases h : N < 0
  · rw [if_pos h]
    simp [okB]
    omega
  · rw [if_neg h]
    by_cases h0 : N = 0
    · rw [if_pos h0]
      simp [okB]
      omega
    · rw [if_neg h0]
      simp [okB]
      omega

/-- C10: with only `white_noise` set, `Noise.__call__` adds one scalar
Gaussian draw of standard deviation `white_noise` uniformly to the whole
time grid: every entry of the returned array is the same value. -/
theorem noise_white_only_constant (w : ℝ) (times : List ℝ) (rng : ℕ → ℝ) :
    noise_call ⟨some w, none, none, none, none, none⟩ times rng =
      List.replicate times.length (w * rng 0) := by
  simp [noise_call, get_white_noise, normal_draw]

/-- Whenever the chunk length `max_memory // N_cells` is at least one
(`1 ≤ N_cells ≤ max_memory`) and the fuel exceeds the number of unprocessed
time samples, the chunking loop terminates and its concatenated chunk
results are the single-chunk evaluation of the unprocessed suffix. -/
theorem pickupFluxLoop_eq (p : FluxProbe) (mixDown : ℝ) (ts : List ℝ)
    (h1 : 1 ≤ Ncells p) (h2 : Ncells p ≤ maxMemory) :
    ∀ fuel idxStart, ts.length - idxStart < fuel →
      pickupFluxLoop p mixDown ts fuel idxStart =
        some (chunkResult p mixDown (ts.drop idxStart)) := by
  intro fuel
  induction fuel with
  | zero => intro idx h; omega
  | succ fuel ih =>
    intro idx h
    rw [pickupFluxLoop]
    by_cases hc : Ncells p * (ts.length - idx) > maxMemory
    · rw [if_pos hc]
      have hchunk : 1 ≤ maxMemory / Ncells p :=
        (Nat.one_le_div_iff (by omega)).mpr h2
      have hrem : 1 ≤ ts.length - idx := by
        rcases Nat.eq_zero_or_pos (ts.length - idx) with h0 | h0
        · rw [h0, Nat.mul_zero] at hc
          exact absurd hc (by omega)
        · exact h0
      have hlt : ts.length - (idx + maxMemory / Ncells p) < fuel := by omega
      rw [ih _ hlt]
      have hdrop : ts.drop (idx + maxMemory / Ncells p) =
          (ts.drop idx).drop (maxMemory / Ncells p) := by
        rw [List.drop_drop, Nat.add_comm]
      rw [hdrop]
      simp only [chunkResult, ← List.map_append, List.take_append_drop]
    · rw [if_neg hc]

/-- C1: with the chunk length `max_memory // N_cells` positive, the chunked
evaluation of `Probe.pickup_flux` returns, in exact arithmetic, exactly the
flux array obtained by evaluating the whole times array in a single chunk,
for every probe state, times array and mix-down frequency. -/
theorem pickup_flux_chunked_eq_single (p : FluxProbe) (mixDown : ℝ)
    (ts : List ℝ) (h1 : 1 ≤ Ncells p) (h2 : Ncells p ≤ maxMemory) :
    pickup_flux p mixDown ts = some (pickup_flux_single p mixDown ts) := by
  rw [pickup_flux, pickupFluxLoop_eq p mixDown ts h1 h2 _ 0 (by omega),
    List.drop_zero]
  rfl

/-- A concrete one-cell probe state used by the witnesses. -/
def fp0 : FluxProbe := ⟨1, 1, 1, 1, 1, true, [⟨1, 1, 1, 0, 1, 1, 1⟩]⟩

/-- Witness for C1: the chunked and single-chunk flux evaluations agree on a
concrete one-cell probe over two time samples. -/
theorem pickup_flux_chunked_eq_single_witness :
    1 ≤ Ncells fp0 ∧ Ncells fp0 ≤ maxMemory ∧
      pickup_flux fp0 0 [0, 1] = some (pickup_flux_single fp0 0 [0, 1]) :=
  ⟨by decide, by decide,
    pickup_flux_chunked_eq_single fp0 0 [0, 1] (by decide) (by decide)⟩

/-- The chunking loop of `Probe.pickup_flux` terminates on the given input:
some fuel suffices to drive it to completion. -/
def pickupFluxTerminates (p : FluxProbe) (mixDown : ℝ) (ts : List ℝ) : Prop :=
  ∃ fuel, (pickupFluxLoop p mixDown ts fuel 0).isSome = true

/-- A probe state with `max_memory + 1` cells, one more than the chunk-size
bound. -/
def fpBig : FluxProbe :=
  ⟨1, 1, 1, 1, 1, true, List.replicate (maxMemory + 1) ⟨1, 1, 1, 0, 1, 1, 1⟩⟩

/-- Counterexample for C9: with `N_cells = max_memory + 1` the chunk length
`max_memory // N_cells` is zero, so on a one-sample times array the loop
never advances `idx_start` and no amount of fuel completes it — the Python
loop runs forever, refuting termination regardless of the relation between
`N_cells` and the chunk-size bound. -/
theorem pickup_flux_nontermination_cex :
    ¬ pickupFluxTerminates fpBig 0 [0] := by
  have hN : Ncells fpBig = maxMemory + 1 := by
    simp [Ncells, fpBig]
  have key : ∀ fuel, pickupFluxLoop fpBig 0 [0] fuel 0 = none := by
    intro fuel
    induction fuel with
    | zero => rfl
    | succ fuel ih =>
      have hlen : ([(0 : ℝ)] : List ℝ).length = 1 := rfl
      have hcond : Ncells fpBig * (([(0 : ℝ)] : List ℝ).length - 0) > maxMemory := by
        rw [hN, hlen]
        omega
      have hdiv : 0 + maxMemory / Ncells fpBig = 0 := by
        rw [hN, Nat.div_eq_of_lt (by omega)]
      rw [pickupFluxLoop, if_pos hcond, hdiv, ih]
  rintro ⟨fuel, hf⟩
  rw [key fuel] at hf
  exact absurd hf (by simp)

/-- C9 (amended): whenever `1 ≤ N_cells ≤ max_memory` the chunking loop makes
progress through every times array and terminates within
`len(times) + 1` iterations. -/
theorem pickup_flux_loop_terminates (p : FluxProbe) (mixDown : ℝ)
    (ts : List ℝ) (h1 : 1 ≤ Ncells p) (h2 : Ncells p ≤ maxMemory) :
    (pickupFluxLoop p mixDown ts (ts.length + 1) 0).isSome = true := by
  rw [pickupFluxLoop_eq p mixDown ts h1 h2 _ 0 (by omega)]
  rfl

/-- Witness for C9: the loop terminates on a concrete one-cell probe and a
one-sample times array. -/
theorem pickup_flux_loop_terminates_witness :
    1 ≤ Ncells fp0 ∧ Ncells fp0 ≤ maxMemory ∧
      (pickupFluxLoop fp0 0 [5] (([(5 : ℝ)] : List ℝ).length + 1) 0).isSome = true :=
  ⟨by decide, by decide, pickup_flux_loop_terminates fp0 0 [5] (by decide) (by decide)⟩

/-- The flux arrays of `Probe.pickup_flux` (single-chunk form) and of the
spec-modelled `Coil.pickup_flux` agree pointwise: the spec's dot product
`B1 . dmu/dt` loses its vanishing y term and factors into the source's
compressed `magnitude * (B1x cos + B1z sin) * exp` form. -/
theorem chunk_eq_coil_spec (p : FluxProbe) (mixDown : ℝ) (ts : List ℝ) :
    (chunkResult p mixDown ts).map (fun v => v / (Ncells p : ℝ)) =
      coil_pickup_flux_spec p mixDown ts := by
  rw [chunkResult, List.map_map, coil_pickup_flux_spec]
  apply List.map_congr_left
  intro t _
  have hsum : (p.cells.map fun c => B_x_dmu_dt p mixDown c t * c.magnetization).sum
      = (p.cells.map fun c =>
          (c.B1x * dmu_x_dt p mixDown c t + c.B1y * dmu_y_dt p mixDown c t +
           c.B1z * dmu_z_dt p mixDown c t) * c.magnetization).sum := by
    apply congrArg
    apply List.map_congr_left
    intro c _
    rw [B_x_dmu_dt, dmu_x_dt, dmu_y_dt, dmu_z_dt, magnitude, cellPhase, omegaMixed]
    ring
  have hsum2 : (p.cells.map fun c =>
        B_x_dmu_dt p mixDown c t * c.magnetization / c.B1).sum
      = (p.cells.map fun c =>
          (c.B1x * dmu_x_dt p mixDown c t + c.B1y * dmu_y_dt p mixDown c t +
           c.B1z * dmu_z_dt p mixDown c t) * c.magnetization / c.B1).sum := by
    apply congrArg
    apply List.map_congr_left
    intro c _
    rw [B_x_dmu_dt, dmu_x_dt, dmu_y_dt, dmu_z_dt, magnitude, cellPhase, omegaMixed]
    ring
  by_cases hA : p.useAverage
  · simp only [Function.comp, fluxAt, if_pos hA, hsum]
    ring
  · simp only [Function.comp, fluxAt, if_neg hA, hsum2]
    ring

/-- C6: `Probe.pickup_flux` returns, in exact arithmetic, exactly the flux
array of the spec-described `Coil.pickup_flux` called with the same probe
state, times array and mix-down frequency (for either normalization
policy). -/
theorem pickup_flux_eq_coil_spec (p : FluxProbe) (mixDown : ℝ) (ts : List ℝ)
    (h1 : 1 ≤ Ncells p) (h2 : Ncells p ≤ maxMemory) :
    pickup_flux p mixDown ts = some (coil_pickup_flux_spec p mixDown ts) := by
  rw [pickup_flux, pickupFluxLoop_eq p mixDown ts h1 h2 _ 0 (by omega),
    List.drop_zero, Option.map_some', chunk_eq_coil_spec]

/-- Witness for C6: the probe read-out and the spec-modelled coil read-out
agree on a concrete one-cell probe over two time samples. -/
theorem pickup_flux_eq_coil_spec_witness :
    1 ≤ Ncells fp0 ∧ Ncells fp0 ≤ maxMemory ∧
      pickup_flux fp0 0 [0, 1] = some (coil_pickup_flux_spec fp0 0 [0, 1]) :=
  ⟨by decide, by decide,
    pickup_flux_eq_coil_spec fp0 0 [0, 1] (by decide) (by decide)⟩

/-- Running the RF stepping loop over a run of running snapshots followed by
a non-running snapshot: `M` ends at the last running snapshot's state and the
history collects exactly the running snapshots. -/
theorem rfLoop_running_prefix (s : RKSnap) (rest : List RKSnap) :
    ∀ (pre : List RKSnap) (M : Option (List ℝ)) (hist : List (ℝ × List ℝ)),
      (∀ x ∈ pre, x.status = RKStatus.running) → s.status ≠ RKStatus.running →
      rfLoop (pre ++ s :: rest) M hist =
        ((pre.getLast?).elim M fun a => some a.y,
         hist ++ pre.map fun x => (x.t, x.y)) := by
  intro pre
  induction pre with
  | nil =>
    intro M hist _ hs
    simp [rfLoop, hs]
  | cons a pre ih =>
    intro M hist hpre hs
    have ha : a.status = RKStatus.running := hpre a (by simp)
    rw [List.cons_append, rfLoop, if_pos ha,
      ih _ _ (fun x hx => hpre x (by simp [hx])) hs]
    cases pre with
    | nil => simp
    | cons b pre2 =>
      simp only [List.getLast?_cons_cons, List.map_cons, List.cons_append,
        List.append_assoc, List.singleton_append, Prod.mk.injEq]
      rcases hgl : (b :: pre2).getLast? with _ | x
      · exact absurd (List.getLast?_eq_none_iff.mp hgl) (by simp)
      · exact ⟨rfl, rfl⟩

/-- A running first snapshot followed by a failing step. -/
def snapRun : RKSnap := ⟨RKStatus.running, 0, [1, 0, 0]⟩

/-- The integrator state after the failed step. -/
def snapFail : RKSnap := ⟨RKStatus.failed, 1, [2, 2, 2]⟩

/-- Counterexample for C2: on an integrator trace whose terminal status is
`failed`, `apply_rf_field_nummerical` returns normally (`ok`) and does not
surface a `NumericalInstability` error, contradicting the claim. -/
theorem apply_rf_failed_returns_ok_cex :
    terminalStatus [snapRun, snapFail] = some RKStatus.failed ∧
      okB (apply_rf_field_nummerical 1 [snapRun, snapFail]) = true ∧
      apply_rf_field_nummerical 1 [snapRun, snapFail] ≠
        Except.error RFError.numericalInstability := by
  refine ⟨rfl, rfl, fun h => ?_⟩
  have hok : okB (apply_rf_field_nummerical 1 [snapRun, snapFail]) = true := rfl
  rw [h] at hok
  exact Bool.noConfusion hok

/-- C2 (amended): when the integrator reports failure after at least one
accepted step, `apply_rf_field_nummerical` exits its loop, silently assigns
the per-cell magnetization from the last accepted (partial) state `a.y`,
returns the partial history normally, and never surfaces a
`NumericalInstability` error. -/
theorem apply_rf_failure_not_surfaced (N : ℕ) (pre : List RKSnap) (s : RKSnap)
    (rest : List RKSnap) (a : RKSnap)
    (hpre : ∀ x ∈ pre, x.status = RKStatus.running)
    (hs : s.status = RKStatus.failed)
    (hlast : pre.getLast? = some a) :
    apply_rf_field_nummerical N (pre ++ s :: rest) =
        Except.ok (rfAssign N a.y (pre.map fun x => (x.t, x.y))) ∧
      apply_rf_field_nummerical N (pre ++ s :: rest) ≠
        Except.error RFError.numericalInstability := by
  have hsr : s.status ≠ RKStatus.running := by
    rw [hs]
    decide
  have hres : apply_rf_field_nummerical N (pre ++ s :: rest) =
      Except.ok (rfAssign N a.y (pre.map fun x => (x.t, x.y))) := by
    rw [apply_rf_field_nummerical, rfLoop_running_prefix s rest pre none [] hpre hsr,
      hlast]
    simp
  exact ⟨hres, by rw [hres]; exact fun h => Except.noConfusion h⟩

/-- Witness for C2 (amended): the concrete two-snapshot trace, one accepted
running step followed by a failure, returns `ok` with the magnetization taken
from the accepted step. -/
theorem apply_rf_failure_not_surfaced_witness :
    (∀ x ∈ [snapRun], x.status = RKStatus.running) ∧
      snapFail.status = RKStatus.failed ∧
      ([snapRun] : List RKSnap).getLast? = some snapRun ∧
      (apply_rf_field_nummerical 1 ([snapRun] ++ snapFail :: []) =
          Except.ok (rfAssign 1 snapRun.y (([snapRun] : List RKSnap).map fun x => (x.t, x.y))) ∧
        apply_rf_field_nummerical 1 ([snapRun] ++ snapFail :: []) ≠
          Except.error RFError.numericalInstability) :=
  ⟨fun x hx => by
      simp only [List.mem_singleton] at hx
      rw [hx]
      rfl,
   rfl, rfl,
   apply_rf_failure_not_surfaced 1 [snapRun] snapFail [] snapRun
     (fun x hx => by
        simp only [List.mem_singleton] at hx
        rw [hx]
        rfl)
     rfl rfl⟩

/-- The Boltzmann-exponential ratio computed by `initialize_cells` is the
hyperbolic tangent. -/
theorem exp_ratio_eq_tanh (a : ℝ) :
    (Real.exp a - Real.exp (-a)) / (Real.exp a + Real.exp (-a)) = Real.tanh a := by
  rw [Real.tanh_eq_sinh_div_cosh, Real.sinh_eq, Real.cosh_eq]
  have h : Real.exp a + Real.exp (-a) ≠ 0 := by positivity
  field_simp

/-- The Boltzmann-exponential ratio lies strictly between -1 and 1. -/
theorem exp_ratio_bounds (a : ℝ) :
    -1 < (Real.exp a - Real.exp (-a)) / (Real.exp a + Real.exp (-a)) ∧
      (Real.exp a - Real.exp (-a)) / (Real.exp a + Real.exp (-a)) < 1 := by
  have hd : 0 < Real.exp a + Real.exp (-a) := by positivity
  constructor
  · rw [lt_div_iff₀ hd]
    nlinarith [Real.exp_pos a]
  · rw [div_lt_one hd]
    nlinarith [Real.exp_pos (-a)]

/-- A cell's sampled transverse position lies strictly inside the cylinder
cross-section: `x**2 + y**2 = radius**2 * u < radius**2` for a unit-uniform
draw `u`. -/
theorem cell_xy_lt (radius u phi : ℝ) (hrad : 0 < radius) (h0 : 0 ≤ u)
    (h1 : u < 1) :
    (Real.sqrt (radius ^ 2 * u) * Real.sin phi) ^ 2 +
      (Real.sqrt (radius ^ 2 * u) * Real.cos phi) ^ 2 < radius ^ 2 := by
  have hs : Real.sqrt (radius ^ 2 * u) ^ 2 = radius ^ 2 * u :=
    Real.sq_sqrt (by positivity)
  have hsplit : (Real.sqrt (radius ^ 2 * u) * Real.sin phi) ^ 2 +
      (Real.sqrt (radius ^ 2 * u) * Real.cos phi) ^ 2 =
      Real.sqrt (radius ^ 2 * u) ^ 2 * (Real.sin phi ^ 2 + Real.cos phi ^ 2) := by
    ring
  rw [hsplit, Real.sin_sq_add_cos_sq, mul_one, hs]
  exact mul_lt_of_lt_one_right (by positivity) h1

/-- C5: every cell produced by `Probe.initialize_cells` with positive length
and radius lies strictly inside the cylinder cross-section and within the
half-open axial range, and its equilibrium nuclear polarization is the
Boltzmann-exponential form of `tanh(mu*B/(kB*T))`, strictly inside
`(-1, 1)`. -/
theorem init_cells_invariants (radius length temp kB V_cell : ℝ)
    (mat : PMaterial) (Bf : ℝ → ℝ → ℝ → ℝ × ℝ × ℝ) (N : ℕ) (U : ℕ → ℝ)
    (hrad : 0 < radius) (hlen : 0 < length)
    (hU : ∀ k, 0 ≤ U k ∧ U k < 1) :
    ∀ c ∈ init_cells radius length temp kB V_cell mat Bf N U,
      c.x ^ 2 + c.y ^ 2 < radius ^ 2 ∧
      (-(length / 2) ≤ c.z ∧ c.z < length / 2) ∧
      (-1 < c.polarization ∧ c.polarization < 1) ∧
      c.polarization = Real.tanh (mat.magnetic_moment * c.B0 / (kB * temp)) := by
  intro c hc
  rw [init_cells] at hc
  simp only [List.mem_map, List.mem_range] at hc
  obtain ⟨i, _, rfl⟩ := hc
  simp only [cellOf]
  refine ⟨cell_xy_lt radius (U i) _ hrad (hU i).1 (hU i).2, ⟨?_, ?_⟩, ?_, ?_⟩
  · have : 0 ≤ length * U (2 * N + i) :=
      mul_nonneg hlen.le (hU (2 * N + i)).1
    linarith
  · have : length * U (2 * N + i) < length :=
      mul_lt_of_lt_one_right hlen (hU (2 * N + i)).2
    linarith
  · exact exp_ratio_bounds _
  · exact exp_ratio_eq_tanh _

/-- Witness for C5: a one-cell probe, all unit-uniform draws 0, in a unit
field along y with zero magnetic moment, satisfies every invariant. -/
theorem init_cells_invariants_witness :
    (0 : ℝ) < 1 ∧ (0 : ℝ) < 2 ∧ (∀ _k : ℕ, 0 ≤ (0 : ℝ) ∧ (0 : ℝ) < 1) ∧
      ∀ c ∈ init_cells 1 2 300 1 1 pm0 Bf0 1 fun _ => 0,
        c.x ^ 2 + c.y ^ 2 < 1 ^ 2 ∧
        (-((2 : ℝ) / 2) ≤ c.z ∧ c.z < 2 / 2) ∧
        (-1 < c.polarization ∧ c.polarization < 1) ∧
        c.polarization = Real.tanh (pm0.magnetic_moment * c.B0 / (1 * 300)) :=
  ⟨by norm_num, by norm_num, fun _ => by norm_num,
    init_cells_invariants 1 2 300 1 1 pm0 Bf0 1 (fun _ => 0) (by norm_num)
      (by norm_num) (fun _ => by norm_num)⟩

end
